import Mathlib

/-!
Verification of the geospatial query-planning engine of the
`cdk-dynamodb-geospatial` repository.

The TypeScript sources are shallowly embedded as Lean definitions:

* numbers that the code treats as coordinates or multipliers become `ℚ`;
  distances in meters (as returned by `geolib.getDistance`, which rounds to
  integer meters) become `ℕ`;
* external npm libraries (`ngeohash`, `geolib`) and the DynamoDB client are
  modelled as explicit function parameters, since they are collaborators
  outside this repository;
* the ambient random-number generator used by `randomSample` is modelled as
  an explicit list of pick values (`picks`): each loop iteration consumes the
  next value and reduces it modulo the array length, which ranges over
  exactly the indices `crypto.randomInt(0, arr.length)` /
  `Math.floor(Math.random() * arr.length)` can produce;
* a JavaScript `Set` of strings is modelled as a list with membership-guarded
  insertion (`setAdd`), matching insertion-order iteration of `Set`;
* `fetchGeoHashItemsFromDynamoDB` runs its per-chunk queries through
  `Promise.all`; the embedding fixes the canonical completion order (key
  order), consistent with the design note that no ordering is guaranteed or
  relied upon.

The repository contains two side-by-side variants of several engine
functions (an older one and a newer one).  Both are embedded where a claim
cites both: the geohash-grouping sampler is `getDistributedPoints`, the
grid sampler is `getDistributedPointsGrid`; the precision-argument route
coverage is `getRouteGeoHashes`, the config-argument one is
`getRouteGeoHashesCfg`.
-/

/-- A geographic point, `{lat, lon}` from `geospatial-engine.ts`. -/
structure Point where
  lat : ℚ
  lon : ℚ
deriving DecidableEq, Repr

/-- A bounding box, `{latMin, lonMin, latMax, lonMax}`. -/
structure BoundingBox where
  latMin : ℚ
  lonMin : ℚ
  latMax : ℚ
  lonMax : ℚ
deriving DecidableEq, Repr

/-- Precision-tier configuration record from `config/geospatial-config.ts`. -/
structure GeospatialConfig where
  distance : ℕ
  index : String
  hashPrecision : ℕ
  distributionPrecision : ℕ
  fetchLimitMultiplier : ℚ
deriving DecidableEq, Repr

/-- The static tier table `GEOSPATIAL_QUERIES` from
`config/geospatial-config.ts`, ordered by descending distance threshold. -/
def GEOSPATIAL_QUERIES : List GeospatialConfig :=
  [ { distance := 2000000, index := "primary", hashPrecision := 1,
      distributionPrecision := 3, fetchLimitMultiplier := 0.5 },
    { distance := 500000, index := "primary", hashPrecision := 2,
      distributionPrecision := 4, fetchLimitMultiplier := 0.4 },
    { distance := 100000, index := "primary", hashPrecision := 3,
      distributionPrecision := 5, fetchLimitMultiplier := 0.3 },
    { distance := 10000, index := "GSI1", hashPrecision := 4,
      distributionPrecision := 5, fetchLimitMultiplier := 0.2 },
    { distance := 0, index := "GSI1", hashPrecision := 5,
      distributionPrecision := 5, fetchLimitMultiplier := 0.1 } ]

/-- The tier-selection loop of `calculateGeoHashPrecision`, as a function of
the observed distance in meters: return the first config whose threshold is
at or below the distance, falling back to the last (finest) config. -/
def selectConfig (distance : ℕ) : GeospatialConfig :=
  match GEOSPATIAL_QUERIES.find? (fun config => distance ≥ config.distance) with
  | some config => config
  | none =>
      GEOSPATIAL_QUERIES.getLastD
        { distance := 0, index := "", hashPrecision := 0,
          distributionPrecision := 0, fetchLimitMultiplier := 0 }

/-- Embedding of `calculateGeoHashPrecision(startPoint, endPoint)`: the
distance computation `geolib.getDistance` (an external library returning
whole meters) is a parameter. -/
def calculateGeoHashPrecision (getDist : Point → Point → ℕ)
    (startPoint endPoint : Point) : GeospatialConfig :=
  selectConfig (getDist startPoint endPoint)

/-- Per-key fetch limit computed by `fetchGeoHashItemsFromDynamoDB`:
`Math.max(Math.ceil(queryLimit * geospatialConfig.fetchLimitMultiplier), 10)`. -/
def fetchLimit (queryLimit : ℕ) (config : GeospatialConfig) : ℤ :=
  max ⌈(queryLimit : ℚ) * config.fetchLimitMultiplier⌉ 10

/-- Embedding of `chunkArray(arr, size)` from `shared/utils.ts`: slice the
array into consecutive chunks of at most `size` elements.  (For `size = 0`
the JavaScript loop never terminates; the embedding returns `[]` there and
every theorem about `chunkArray` assumes a positive size.) -/
def chunkArray {α : Type} (arr : List α) (size : ℕ) : List (List α) :=
  if h1 : size = 0 then []
  else if h2 : arr.isEmpty then []
  else arr.take size :: chunkArray (arr.drop size) size
termination_by arr.length
decreasing_by
  have hp : 0 < size := Nat.pos_of_ne_zero h1
  have hl : 0 < arr.length := by
    cases arr with
    | nil => simp at h2
    | cons a rest => simp
  simp only [List.length_drop]
  omega

/-- Embedding of `fetchGeoHashItemsFromDynamoDB(ddb, geoHashes,
geospatialConfig, queryLimit)`.  The store boundary
`performGeospatialQueryCommand` is the parameter `query`, taking a key and
the per-key limit and returning either a page of items or a failure; the
`try/catch` around each per-key call maps a failure to no contribution. -/
def fetchGeoHashItemsFromDynamoDB {Item : Type}
    (query : String → ℤ → Except String (List Item))
    (geoHashes : List String) (geospatialConfig : GeospatialConfig)
    (queryLimit : ℕ) : List Item :=
  let fl := fetchLimit queryLimit geospatialConfig
  (chunkArray geoHashes 50).foldl
    (fun results chunk =>
      results ++ chunk.flatMap (fun pfx =>
        match query pfx fl with
        | .ok response => response
        | .error _ => []))
    []

/-! ### Helper lemmas about chunking -/

theorem chunkArray_join_aux {α : Type} (size : ℕ) (hs : 0 < size) :
    ∀ (n : ℕ) (arr : List α), arr.length ≤ n → (chunkArray arr size).flatten = arr := by
  intro n
  induction n with
  | zero =>
      intro arr harr
      have : arr = [] := List.eq_nil_of_length_eq_zero (Nat.le_zero.mp harr)
      subst this
      rw [chunkArray]
      split <;> simp
  | succ n ih =>
      intro arr harr
      rw [chunkArray]
      split
      · simp_all
      · split
        · rename_i hemp
          simp_all [List.isEmpty_iff]
        · rename_i hsz hemp
          have hl : 0 < arr.length := by
            cases arr with
            | nil => simp at hemp
            | cons a rest => simp
          have hd : (arr.drop size).length ≤ n := by
            simp only [List.length_drop]; omega
          rw [List.flatten_cons, ih (arr.drop size) hd, List.take_append_drop]

theorem chunkArray_join {α : Type} (size : ℕ) (hs : 0 < size) (arr : List α) :
    (chunkArray arr size).flatten = arr :=
  chunkArray_join_aux size hs arr.length arr le_rfl

theorem chunkArray_mem_length_le_aux {α : Type} (size : ℕ) :
    ∀ (n : ℕ) (arr : List α) (c : List α),
      arr.length ≤ n → c ∈ chunkArray arr size → c.length ≤ size := by
  intro n
  induction n with
  | zero =>
      intro arr c harr hc
      have : arr = [] := List.eq_nil_of_length_eq_zero (Nat.le_zero.mp harr)
      subst this
      rw [chunkArray] at hc
      split at hc
      · simp at hc
      · simp at hc
  | succ n ih =>
      intro arr c harr hc
      rw [chunkArray] at hc
      split at hc
      · simp at hc
      · split at hc
        · simp at hc
        · rename_i hsz hemp
          have hl : 0 < arr.length := by
            cases arr with
            | nil => simp at hemp
            | cons a rest => simp
          rcases List.mem_cons.mp hc with rfl | hc
          · simpa using List.length_take_le size arr
          · have hd : (arr.drop size).length ≤ n := by
              simp only [List.length_drop]
              have : 0 < size := Nat.pos_of_ne_zero hsz
              omega
            exact ih (arr.drop size) c hd hc

theorem chunkArray_mem_length_le {α : Type} (size : ℕ) (arr : List α)
    (c : List α) (hc : c ∈ chunkArray arr size) : c.length ≤ size :=
  chunkArray_mem_length_le_aux size arr.length arr c le_rfl hc

theorem chunkArray_flatMap_aux {α β : Type} (size : ℕ) (hs : 0 < size)
    (g : α → List β) :
    ∀ (n : ℕ) (arr : List α), arr.length ≤ n →
      (chunkArray arr size).flatMap (fun c => c.flatMap g) = arr.flatMap g := by
  intro n
  induction n with
  | zero =>
      intro arr harr
      have : arr = [] := List.eq_nil_of_length_eq_zero (Nat.le_zero.mp harr)
      subst this
      rw [chunkArray]
      split <;> simp
  | succ n ih =>
      intro arr harr
      rw [chunkArray]
      split
      · simp_all
      · split
        · rename_i hemp
          simp_all [List.isEmpty_iff]
        · rename_i hsz hemp
          have hl : 0 < arr.length := by
            cases arr with
            | nil => simp at hemp
            | cons a rest => simp
          have hd : (arr.drop size).length ≤ n := by
            simp only [List.length_drop]; omega
          rw [List.flatMap_cons, ih (arr.drop size) hd, ← List.flatMap_append,
            List.take_append_drop]

theorem chunkArray_flatMap {α β : Type} (size : ℕ) (hs : 0 < size)
    (g : α → List β) (arr : List α) :
    (chunkArray arr size).flatMap (fun c => c.flatMap g) = arr.flatMap g :=
  chunkArray_flatMap_aux size hs g arr.length arr le_rfl

theorem foldl_append_eq_flatMap {α β : Type} (g : α → List β) :
    ∀ (chunks : List α) (init : List β),
      chunks.foldl (fun results c => results ++ g c) init = init ++ chunks.flatMap g := by
  intro chunks
  induction chunks with
  | nil => intro init; simp
  | cons c cs ih =>
      intro init
      simp only [List.foldl_cons, ih, List.flatMap_cons, List.append_assoc]

/-- The executor visits every input key exactly once, in order, and keeps the
page of each successful call while a failed call contributes nothing. -/
theorem fetchGeoHashItems_eq_flatMap {Item : Type}
    (query : String → ℤ → Except String (List Item))
    (geoHashes : List String) (config : GeospatialConfig) (queryLimit : ℕ) :
    fetchGeoHashItemsFromDynamoDB query geoHashes config queryLimit =
      geoHashes.flatMap (fun pfx =>
        match query pfx (fetchLimit queryLimit config) with
        | .ok response => response
        | .error _ => []) := by
  unfold fetchGeoHashItemsFromDynamoDB
  rw [foldl_append_eq_flatMap]
  rw [List.nil_append]
  have h50 : (0:ℕ) < 50 := by norm_num
  rw [← chunkArray_flatMap 50 h50 _ geoHashes]

/-! ### Claim C2 -/

/-- C2: for every distance function and every pair of points,
`calculateGeoHashPrecision` returns exactly the first tier of
the static table whose threshold is at or below the observed distance;
the `find?` always succeeds (the last tier has threshold 0), so the selector
is total and never falls through to an error. -/
theorem calculateGeoHashPrecision_first_match (getDist : Point → Point → ℕ)
    (startPoint endPoint : Point) :
    GEOSPATIAL_QUERIES.find? (fun config => getDist startPoint endPoint ≥ config.distance)
      = some (calculateGeoHashPrecision getDist startPoint endPoint) := by
  unfold calculateGeoHashPrecision selectConfig GEOSPATIAL_QUERIES
  set d := getDist startPoint endPoint with hd
  simp only [List.find?]
  by_cases h1 : d ≥ 2000000
  · simp [h1, decide_eq_true_eq]
  · simp only [ge_iff_le, decide_eq_true_eq]
    by_cases h2 : d ≥ 500000
    · simp [h1, h2]
    · by_cases h3 : d ≥ 100000
      · simp [h1, h2, h3]
      · by_cases h4 : d ≥ 10000
        · simp [h1, h2, h3, h4]
        · simp [h1, h2, h3, h4]

/-! ### Claim C5 -/

/-- The geohash precision selected for a given distance, written as a chain
of threshold tests (proved equal to the table scan in the C5 theorem). -/
def precisionOfDistance (d : ℕ) : ℕ :=
  if d ≥ 2000000 then 1
  else if d ≥ 500000 then 2
  else if d ≥ 100000 then 3
  else if d ≥ 10000 then 4
  else 5

theorem selectConfig_hashPrecision (d : ℕ) :
    (selectConfig d).hashPrecision = precisionOfDistance d := by
  unfold selectConfig GEOSPATIAL_QUERIES precisionOfDistance
  simp only [List.find?, ge_iff_le, decide_eq_true_eq]
  by_cases h1 : 2000000 ≤ d
  · simp [h1]
  · by_cases h2 : 500000 ≤ d
    · simp [h1, h2]
    · by_cases h3 : 100000 ≤ d
      · simp [h1, h2, h3]
      · by_cases h4 : 10000 ≤ d
        · simp [h1, h2, h3, h4]
        · simp [h1, h2, h3, h4]

/-- C5: precision monotonicity — a strictly smaller distance never selects a
strictly coarser tier: the hash precision selected for `d1 < d2` is at least
the hash precision selected for `d2`. -/
theorem selectConfig_precision_antitone (d1 d2 : ℕ) (h : d1 < d2) :
    (selectConfig d2).hashPrecision ≤ (selectConfig d1).hashPrecision := by
  rw [selectConfig_hashPrecision, selectConfig_hashPrecision]
  unfold precisionOfDistance
  split_ifs <;> omega

/-- Witness for C5 at the concrete pair of distances 5000 < 150000. -/
theorem selectConfig_precision_antitone_witness :
    5000 < 150000 ∧
      (selectConfig 150000).hashPrecision ≤ (selectConfig 5000).hashPrecision :=
  ⟨by norm_num, selectConfig_precision_antitone 5000 150000 (by norm_num)⟩

/-! ### Claim C7 -/

/-- C7: the executor passes every per-key store call the fetch limit
`max(ceil(limit * multiplier), 10)`, which is always at least 10. -/
theorem fetchLimit_formula_and_floor {Item : Type}
    (query : String → ℤ → Except String (List Item))
    (geoHashes : List String) (config : GeospatialConfig) (queryLimit : ℕ) :
    fetchGeoHashItemsFromDynamoDB query geoHashes config queryLimit =
      geoHashes.flatMap (fun pfx =>
        match query pfx (max ⌈(queryLimit : ℚ) * config.fetchLimitMultiplier⌉ 10) with
        | .ok response => response
        | .error _ => []) ∧
    (10 : ℤ) ≤ fetchLimit queryLimit config := by
  constructor
  · exact fetchGeoHashItems_eq_flatMap query geoHashes config queryLimit
  · exact le_max_right _ _

/-! ### Claim C10 -/

/-- C10: for every array and every positive chunk size, the in-order
concatenation of the chunks produced by `chunkArray` equals the original
array, every chunk has at most `size` elements, and the total number of
elements across chunks equals the input length (no element is dropped or
duplicated by the batching, so the fan-out issues exactly one query per
input key). -/
theorem chunkArray_partitions {α : Type} (arr : List α) (size : ℕ) (hpos : 0 < size) :
    (chunkArray arr size).flatten = arr ∧
    (∀ c ∈ chunkArray arr size, c.length ≤ size) ∧
    ((chunkArray arr size).map List.length).sum = arr.length := by
  refine ⟨chunkArray_join size hpos arr, fun c hc => chunkArray_mem_length_le size arr c hc, ?_⟩
  rw [← List.length_flatten, chunkArray_join size hpos arr]

/-- Witness for C10 on a concrete five-element array with chunk size 2. -/
theorem chunkArray_partitions_witness :
    (chunkArray [1, 2, 3, 4, 5] 2).flatten = [1, 2, 3, 4, 5] ∧
    (∀ c ∈ chunkArray [1, 2, 3, 4, 5] 2, c.length ≤ 2) ∧
    ((chunkArray [1, 2, 3, 4, 5] 2).map List.length).sum = 5 :=
  chunkArray_partitions [1, 2, 3, 4, 5] 2 (by norm_num)

/-! ### Claim C1 -/

/-- C1: fan-out fault isolation.  For every store oracle (which fixes, for
each key, whether that per-key query fails and what it returns), the
executor's aggregate equals exactly the concatenation of the pages of the
successful per-key calls; failing keys contribute nothing.  The executor is
a total function into a plain item list — every per-key failure is consumed
by its `try/catch`, so no exception escapes the executor. -/
theorem fetchGeoHashItems_fault_isolation {Item : Type}
    (query : String → ℤ → Except String (List Item))
    (geoHashes : List String) (config : GeospatialConfig) (queryLimit : ℕ) :
    fetchGeoHashItemsFromDynamoDB query geoHashes config queryLimit =
      (geoHashes.filterMap
        (fun k => (query k (fetchLimit queryLimit config)).toOption)).flatten := by
  rw [fetchGeoHashItems_eq_flatMap]
  induction geoHashes with
  | nil => rfl
  | cons k ks ih =>
      rw [List.flatMap_cons, List.filterMap_cons]
      cases hq : query k (fetchLimit queryLimit config) with
      | ok r => simp only [Except.toOption, List.flatten_cons, ih]
      | error e => simp only [Except.toOption, List.nil_append, ih]

/-! ### Decimal rendering of naturals (needed for shard-label distinctness)

The shard labels are built with the template literal S-dollar-i, i.e. the
decimal rendering `Nat.repr i`.  We prove that rendering injective and free
of the hash separator character. -/

/-- Numeric value of a decimal digit character. -/
def digitVal (c : Char) : ℕ := c.toNat - '0'.toNat

/-- Left-fold decimal parse of a character list, with accumulator. -/
def valOfDigitsAux : ℕ → List Char → ℕ
  | a, [] => a
  | a, c :: cs => valOfDigitsAux (10 * a + digitVal c) cs

set_option maxHeartbeats 1000000 in
theorem digitVal_digitChar : ∀ m : ℕ, m < 10 → digitVal (Nat.digitChar m) = m := by decide

set_option maxHeartbeats 1000000 in
theorem digitChar_ne_hash (m : ℕ) : Nat.digitChar m ≠ '#' := by
  rcases Nat.lt_or_ge m 16 with h | h
  · exact (by decide : ∀ k, k < 16 → Nat.digitChar k ≠ '#') m h
  · have e : Nat.digitChar m = '*' := by
      have h0 : ¬ (m = 0) := by omega
      have h1 : ¬ (m = 1) := by omega
      have h2 : ¬ (m = 2) := by omega
      have h3 : ¬ (m = 3) := by omega
      have h4 : ¬ (m = 4) := by omega
      have h5 : ¬ (m = 5) := by omega
      have h6 : ¬ (m = 6) := by omega
      have h7 : ¬ (m = 7) := by omega
      have h8 : ¬ (m = 8) := by omega
      have h9 : ¬ (m = 9) := by omega
      have h10 : ¬ (m = 10) := by omega
      have h11 : ¬ (m = 11) := by omega
      have h12 : ¬ (m = 12) := by omega
      have h13 : ¬ (m = 13) := by omega
      have h14 : ¬ (m = 14) := by omega
      have h15 : ¬ (m = 15) := by omega
      unfold Nat.digitChar
      simp only [h0, h1, h2, h3, h4, h5, h6, h7, h8, h9, h10, h11, h12, h13, h14, h15,
        if_false]
    rw [e]
    decide

theorem toDigitsCore_app (b : ℕ) :
    ∀ (fuel n : ℕ) (ds : List Char),
      Nat.toDigitsCore b fuel n ds = Nat.toDigitsCore b fuel n [] ++ ds := by
  intro fuel
  induction fuel with
  | zero => intro n ds; simp [Nat.toDigitsCore]
  | succ fuel ih =>
      intro n ds
      simp only [Nat.toDigitsCore]
      by_cases h : n / b = 0
      · simp [h]
      · simp only [h, if_false]
        rw [ih (n / b) (Nat.digitChar (n % b) :: ds), ih (n / b) [Nat.digitChar (n % b)]]
        simp

theorem toDigitsCore_fuel_irrelevant :
    ∀ (n fuel fuel' : ℕ), n < fuel → n < fuel' →
      Nat.toDigitsCore 10 fuel n [] = Nat.toDigitsCore 10 fuel' n [] := by
  intro n
  induction n using Nat.strong_induction_on with
  | _ n ih =>
      intro fuel fuel' hf hf'
      cases fuel with
      | zero => omega
      | succ f =>
          cases fuel' with
          | zero => omega
          | succ f' =>
              simp only [Nat.toDigitsCore]
              by_cases h : n / 10 = 0
              · simp [h]
              · simp only [h, if_false]
                rw [toDigitsCore_app 10 f, toDigitsCore_app 10 f']
                have hn : 0 < n := by
                  rcases Nat.eq_zero_or_pos n with rfl | hp
                  · simp at h
                  · exact hp
                have hlt : n / 10 < n := Nat.div_lt_self hn (by norm_num)
                rw [ih (n / 10) hlt f f' (by omega) (by omega)]

theorem valOfDigitsAux_nil (a : ℕ) : valOfDigitsAux a [] = a := rfl

theorem valOfDigitsAux_cons (a : ℕ) (c : Char) (cs : List Char) :
    valOfDigitsAux a (c :: cs) = valOfDigitsAux (10 * a + digitVal c) cs := rfl

theorem valOfDigitsAux_append (l1 : List Char) :
    ∀ (a : ℕ) (l2 : List Char),
      valOfDigitsAux a (l1 ++ l2) = valOfDigitsAux (valOfDigitsAux a l1) l2 := by
  induction l1 with
  | nil => intro a l2; rfl
  | cons c cs ih =>
      intro a l2
      rw [List.cons_append, valOfDigitsAux_cons, valOfDigitsAux_cons, ih]

theorem valOfDigitsAux_toDigits :
    ∀ n : ℕ, valOfDigitsAux 0 (Nat.toDigits 10 n) = n := by
  intro n
  induction n using Nat.strong_induction_on with
  | _ n ih =>
      unfold Nat.toDigits
      simp only [Nat.toDigitsCore]
      by_cases h : n / 10 = 0
      · have hn : n < 10 := (Nat.div_eq_zero_iff (by norm_num)).mp h
        simp only [h, if_true]
        rw [valOfDigitsAux_cons, valOfDigitsAux_nil]
        rw [digitVal_digitChar (n % 10) (Nat.mod_lt n (by norm_num))]
        omega
      · simp only [h, if_false]
        have hn : 0 < n := by
          rcases Nat.eq_zero_or_pos n with rfl | hp
          · simp at h
          · exact hp
        have hlt : n / 10 < n := Nat.div_lt_self hn (by norm_num)
        rw [toDigitsCore_app 10 n (n / 10)]
        rw [toDigitsCore_fuel_irrelevant (n / 10) n (n / 10 + 1) (by omega) (by omega)]
        rw [valOfDigitsAux_append]
        have hrec : valOfDigitsAux 0 (Nat.toDigitsCore 10 (n / 10 + 1) (n / 10) []) = n / 10 :=
          ih (n / 10) hlt
        rw [hrec]
        rw [valOfDigitsAux_cons, valOfDigitsAux_nil]
        rw [digitVal_digitChar (n % 10) (Nat.mod_lt n (by norm_num))]
        omega

theorem nat_repr_injective : Function.Injective Nat.repr := by
  intro m n h
  have hdata : Nat.toDigits 10 m = Nat.toDigits 10 n := congrArg String.data h
  calc m = valOfDigitsAux 0 (Nat.toDigits 10 m) := (valOfDigitsAux_toDigits m).symm
    _ = valOfDigitsAux 0 (Nat.toDigits 10 n) := by rw [hdata]
    _ = n := valOfDigitsAux_toDigits n

theorem hash_not_mem_toDigitsCore :
    ∀ (fuel n : ℕ) (ds : List Char), '#' ∉ ds → '#' ∉ Nat.toDigitsCore 10 fuel n ds := by
  intro fuel
  induction fuel with
  | zero => intro n ds hds; simpa [Nat.toDigitsCore] using hds
  | succ fuel ih =>
      intro n ds hds
      simp only [Nat.toDigitsCore]
      have hd : '#' ∉ Nat.digitChar (n % 10) :: ds := by
        intro hmem
        rcases List.mem_cons.mp hmem with heq | hmem'
        · exact digitChar_ne_hash (n % 10) heq.symm
        · exact hds hmem'
      by_cases h : n / 10 = 0
      · simp only [h, if_true]
        exact hd
      · simp only [h, if_false]
        exact ih (n / 10) (Nat.digitChar (n % 10) :: ds) hd

theorem hash_not_mem_repr (n : ℕ) : '#' ∉ (Nat.repr n).data :=
  hash_not_mem_toDigitsCore (n + 1) n [] (by simp)

/-! ### Claim C6 -/

/-- Embedding of `getAllShardPrefixes(prefixes, hash)` from the shared
utilities: build the shard labels S1 .. Sn and, when a non-empty hash is
supplied (string truthiness), append the separator and the hash to each. -/
def getAllShardPrefixes (prefixes : ℕ) (hash : String) : List String :=
  let shardKeys := (List.range prefixes).map (fun i => "S" ++ Nat.repr (i + 1))
  if hash = "" then shardKeys else shardKeys.map (fun key => key ++ "#" ++ hash)

theorem getAllShardPrefixes_length (prefixes : ℕ) (hash : String) :
    (getAllShardPrefixes prefixes hash).length = prefixes := by
  unfold getAllShardPrefixes
  split <;> simp

theorem append_hash_cons_inj :
    ∀ (A : List Char), '#' ∉ A → ∀ (B : List Char), '#' ∉ B →
      ∀ (X Y : List Char), A ++ '#' :: X = B ++ '#' :: Y → A = B ∧ X = Y := by
  intro A
  induction A with
  | nil =>
      intro _ B hB X Y h
      cases B with
      | nil =>
          simp only [List.nil_append] at h
          injection h with _ h2
          exact ⟨rfl, h2⟩
      | cons b bs =>
          simp only [List.nil_append, List.cons_append] at h
          injection h with h1 _
          exact absurd (List.mem_cons_self b bs) (h1 ▸ hB)
  | cons a as ih =>
      intro hA B hB X Y h
      cases B with
      | nil =>
          simp only [List.cons_append, List.nil_append] at h
          injection h with h1 _
          exact absurd (List.mem_cons_self a as) (h1 ▸ hA)
      | cons b bs =>
          simp only [List.cons_append] at h
          injection h with h1 h2
          have hA' : '#' ∉ as := fun hm => hA (List.mem_cons_of_mem a hm)
          have hB' : '#' ∉ bs := fun hm => hB (List.mem_cons_of_mem b hm)
          obtain ⟨hab, hxy⟩ := ih hA' bs hB' X Y h2
          exact ⟨by rw [h1, hab], hxy⟩

theorem hash_not_mem_repr_data (n : ℕ) : '#' ∉ ('S' :: (Nat.repr n).data) := by
  intro hm
  rcases List.mem_cons.mp hm with heq | hmem
  · exact absurd heq.symm (by decide)
  · exact hash_not_mem_repr n hmem

theorem shardKey_data (i : ℕ) (g : String) :
    ("S" ++ Nat.repr (i + 1) ++ "#" ++ g).data
      = ('S' :: (Nat.repr (i + 1)).data) ++ '#' :: g.data := by
  simp only [String.data_append]
  simp [List.append_assoc]

theorem shardKey_inj {i j : ℕ} {g g' : String}
    (hg : '#' ∉ g.data) (hg' : '#' ∉ g'.data)
    (he : "S" ++ Nat.repr (i + 1) ++ "#" ++ g = "S" ++ Nat.repr (j + 1) ++ "#" ++ g') :
    i = j ∧ g = g' := by
  have hd := congrArg String.data he
  rw [shardKey_data, shardKey_data] at hd
  obtain ⟨hab, hxy⟩ :=
    append_hash_cons_inj _ (hash_not_mem_repr_data (i + 1)) _ (hash_not_mem_repr_data (j + 1))
      _ _ hd
  injection hab with _ hrepr
  have hij : i + 1 = j + 1 := nat_repr_injective (String.ext hrepr)
  exact ⟨by omega, String.ext hxy⟩

/-- C6: shard expansion cardinality.  Expanding `k` distinct non-empty
geohash prefixes (geohashes never contain the separator character) with
shard count `N` yields exactly `k * N` sharded keys, pairwise distinct. -/
theorem getAllShardPrefixes_eq (N : ℕ) (g : String) (hne : g ≠ "") :
    getAllShardPrefixes N g
      = (List.range N).map (fun i => "S" ++ Nat.repr (i + 1) ++ "#" ++ g) := by
  simp only [getAllShardPrefixes]
  rw [if_neg hne, List.map_map]
  rfl

theorem shard_expansion_cardinality (N : ℕ) (hs : List String) (hnd : hs.Nodup)
    (hok : ∀ g ∈ hs, g ≠ "" ∧ '#' ∉ g.data) :
    (hs.flatMap (fun g => getAllShardPrefixes N g)).length = hs.length * N ∧
    (hs.flatMap (fun g => getAllShardPrefixes N g)).Nodup := by
  constructor
  · rw [List.length_flatMap]
    rw [show List.map (List.length ∘ fun g => getAllShardPrefixes N g) hs
          = List.map (fun _ => N) hs
        from List.map_congr_left (fun g _ => getAllShardPrefixes_length N g)]
    rw [List.map_const']
    rw [List.sum_replicate, smul_eq_mul]
  · rw [List.nodup_flatMap]
    constructor
    · intro g hg
      rw [getAllShardPrefixes_eq N g (hok g hg).1]
      apply List.Nodup.map ?_ (List.nodup_range N)
      intro i j hij
      exact ((shardKey_inj (hok g hg).2 (hok g hg).2 hij).1)
    · apply List.Pairwise.imp_of_mem ?_ hnd
      intro g g' hg hg' hne
      intro x hx hx'
      simp only at hx hx'
      rw [getAllShardPrefixes_eq N g (hok g hg).1] at hx
      rw [getAllShardPrefixes_eq N g' (hok g' hg').1] at hx'
      obtain ⟨i, -, rfl⟩ := List.mem_map.mp hx
      obtain ⟨j, -, hkey⟩ := List.mem_map.mp hx'
      exact hne ((shardKey_inj (hok g hg).2 (hok g' hg').2 hkey.symm).2)

/-- Witness for C6 with two concrete prefixes and shard count 3. -/
theorem shard_expansion_cardinality_witness :
    (["ab", "cd"].flatMap (fun g => getAllShardPrefixes 3 g)).length
        = ["ab", "cd"].length * 3 ∧
    (["ab", "cd"].flatMap (fun g => getAllShardPrefixes 3 g)).Nodup :=
  shard_expansion_cardinality 3 ["ab", "cd"] (by decide) (by decide)

/-! ### Route coverage (claims C4, C8) -/

/-- List model of a JavaScript `Set` (or of the first-seen key order of a
plain object used as a map): membership-guarded insertion, iteration in
insertion order. -/
def setAdd {κ : Type} [DecidableEq κ] (l : List κ) (s : κ) : List κ :=
  if s ∈ l then l else l ++ [s]

/-- Add every element of `hashes` to the set model, in order. -/
def setAddAll {κ : Type} [DecidableEq κ] (l : List κ) (hashes : List κ) : List κ :=
  hashes.foldl setAdd l

theorem mem_setAdd_mono {κ : Type} [DecidableEq κ] {a : κ} {l : List κ} (s : κ) (h : a ∈ l) :
    a ∈ setAdd l s := by
  unfold setAdd
  split
  · exact h
  · exact List.mem_append_left _ h

theorem mem_setAddAll_mono {κ : Type} [DecidableEq κ] {a : κ} :
    ∀ (hashes : List κ) (l : List κ), a ∈ l → a ∈ setAddAll l hashes := by
  intro hashes
  induction hashes with
  | nil => intro l h; exact h
  | cons x xs ih =>
      intro l h
      exact ih (setAdd l x) (mem_setAdd_mono x h)

theorem mem_setAdd_self {κ : Type} [DecidableEq κ] (l : List κ) (s : κ) : s ∈ setAdd l s := by
  unfold setAdd
  split
  · assumption
  · exact List.mem_append_right _ (List.mem_singleton.mpr rfl)

theorem setAdd_nodup {κ : Type} [DecidableEq κ] {l : List κ} (h : l.Nodup) (s : κ) :
    (setAdd l s).Nodup := by
  unfold setAdd
  split
  · exact h
  · rename_i hmem
    rw [List.nodup_append]
    exact ⟨h, List.nodup_singleton s, fun a ha hs =>
      hmem (List.mem_singleton.mp hs ▸ ha)⟩

theorem foldl_setAdd_nodup {κ : Type} [DecidableEq κ] :
    ∀ (xs : List κ) (init : List κ), init.Nodup → (xs.foldl setAdd init).Nodup := by
  intro xs
  induction xs with
  | nil => intro init h; exact h
  | cons x xs ih => intro init h; exact ih (setAdd init x) (setAdd_nodup h x)

/-- Embedding of the precision-argument variant of `getRouteGeoHashes(start,
end, precision, stepMeters, bufferMeters)`.  External `geolib` and `ngeohash`
functions are parameters: `getDist` (whole meters), `bearingFn`
(`getRhumbLineBearing`), `destPoint` (`computeDestinationPoint`), `cosDeg`
(the cosine of the latitude in degrees used for the longitude buffer), the
geohash `encode` and the bounding-box cover `bboxes`. -/
def getRouteGeoHashes
    (getDist : Point → Point → ℕ)
    (bearingFn : Point → Point → ℚ)
    (destPoint : Point → ℚ → ℚ → Point)
    (cosDeg : ℚ → ℚ)
    (encode : ℚ → ℚ → ℕ → String)
    (bboxes : ℚ → ℚ → ℚ → ℚ → ℕ → List String)
    (start stop : Point) (precision stepMeters : ℕ) (bufferMeters : ℚ) : List String :=
  let routeLength := getDist start stop
  let s1 := setAdd [] (encode start.lat start.lon precision)
  let s2 := setAdd s1 (encode stop.lat stop.lon precision)
  let bearing := bearingFn start stop
  let steps := routeLength / stepMeters
  (List.range (steps + 1)).foldl
    (fun acc i =>
      let point := destPoint start ((i * stepMeters : ℕ) : ℚ) bearing
      let latBuffer := bufferMeters / 111000
      let lonBuffer := bufferMeters / (111000 * cosDeg point.lat)
      setAddAll acc (bboxes (point.lat - latBuffer) (point.lon - lonBuffer)
        (point.lat + latBuffer) (point.lon + lonBuffer) precision))
    s2

/-- Embedding of the config-argument variant of `getRouteGeoHashes(start,
end, geospatialConfig, stepMeters, bufferMeters)`: same corridor walk at the
config's hash precision, followed by shard expansion when the config selects
the primary index. -/
def getRouteGeoHashesCfg
    (getDist : Point → Point → ℕ)
    (bearingFn : Point → Point → ℚ)
    (destPoint : Point → ℚ → ℚ → Point)
    (cosDeg : ℚ → ℚ)
    (encode : ℚ → ℚ → ℕ → String)
    (bboxes : ℚ → ℚ → ℚ → ℚ → ℕ → List String)
    (shards : ℕ)
    (start stop : Point) (geospatialConfig : GeospatialConfig)
    (stepMeters : ℕ) (bufferMeters : ℚ) : List String :=
  let hashes := getRouteGeoHashes getDist bearingFn destPoint cosDeg encode bboxes
    start stop geospatialConfig.hashPrecision stepMeters bufferMeters
  if geospatialConfig.index = "primary" then
    hashes.flatMap (fun hsh => getAllShardPrefixes shards hsh)
  else hashes

theorem mem_route_fold_mono {a : String} (g : ℕ → List String) :
    ∀ (idxs : List ℕ) (init : List String), a ∈ init →
      a ∈ idxs.foldl (fun acc i => setAddAll acc (g i)) init := by
  intro idxs
  induction idxs with
  | nil => intro init h; exact h
  | cons i is ih =>
      intro init h
      exact ih (setAddAll init (g i)) (mem_setAddAll_mono (g i) init h)

theorem getRouteGeoHashes_mem_endpoints
    (getDist : Point → Point → ℕ) (bearingFn : Point → Point → ℚ)
    (destPoint : Point → ℚ → ℚ → Point) (cosDeg : ℚ → ℚ)
    (encode : ℚ → ℚ → ℕ → String) (bboxes : ℚ → ℚ → ℚ → ℚ → ℕ → List String)
    (start stop : Point) (precision stepMeters : ℕ) (bufferMeters : ℚ) :
    encode start.lat start.lon precision ∈
        getRouteGeoHashes getDist bearingFn destPoint cosDeg encode bboxes
          start stop precision stepMeters bufferMeters ∧
    encode stop.lat stop.lon precision ∈
        getRouteGeoHashes getDist bearingFn destPoint cosDeg encode bboxes
          start stop precision stepMeters bufferMeters := by
  unfold getRouteGeoHashes
  constructor
  · apply mem_route_fold_mono
    exact mem_setAdd_mono _ (mem_setAdd_self _ _)
  · apply mem_route_fold_mono
    exact mem_setAdd_self _ _

/-! ### Claim C4 -/

/-- C4 (amended): for every start and end point, the precision-argument
variant of the route coverage always contains the geohash of both endpoints
at the requested precision (for any positive step size); the config-argument
variant contains them whenever the selected tier does not use the primary
index.  (Under a primary-index tier that variant returns only shard-prefixed
keys — see the counterexample theorem.) -/
theorem routeCoverage_contains_endpoints
    (getDist : Point → Point → ℕ) (bearingFn : Point → Point → ℚ)
    (destPoint : Point → ℚ → ℚ → Point) (cosDeg : ℚ → ℚ)
    (encode : ℚ → ℚ → ℕ → String) (bboxes : ℚ → ℚ → ℚ → ℚ → ℕ → List String)
    (start stop : Point) :
    (∀ (precision stepMeters : ℕ) (bufferMeters : ℚ), 0 < stepMeters →
      encode start.lat start.lon precision ∈
          getRouteGeoHashes getDist bearingFn destPoint cosDeg encode bboxes
            start stop precision stepMeters bufferMeters ∧
      encode stop.lat stop.lon precision ∈
          getRouteGeoHashes getDist bearingFn destPoint cosDeg encode bboxes
            start stop precision stepMeters bufferMeters) ∧
    (∀ (shards stepMeters : ℕ) (bufferMeters : ℚ) (geospatialConfig : GeospatialConfig),
      0 < stepMeters → geospatialConfig.index ≠ "primary" →
      encode start.lat start.lon geospatialConfig.hashPrecision ∈
          getRouteGeoHashesCfg getDist bearingFn destPoint cosDeg encode bboxes
            shards start stop geospatialConfig stepMeters bufferMeters ∧
      encode stop.lat stop.lon geospatialConfig.hashPrecision ∈
          getRouteGeoHashesCfg getDist bearingFn destPoint cosDeg encode bboxes
            shards start stop geospatialConfig stepMeters bufferMeters) := by
  constructor
  · intro precision stepMeters bufferMeters _
    exact getRouteGeoHashes_mem_endpoints getDist bearingFn destPoint cosDeg encode bboxes
      start stop precision stepMeters bufferMeters
  · intro shards stepMeters bufferMeters geospatialConfig _ hidx
    unfold getRouteGeoHashesCfg
    rw [if_neg hidx]
    exact getRouteGeoHashes_mem_endpoints getDist bearingFn destPoint cosDeg encode bboxes
      start stop geospatialConfig.hashPrecision stepMeters bufferMeters

/-- Witness for C4 at concrete library stubs, points and configuration. -/
theorem routeCoverage_contains_endpoints_witness :
    ("e" ∈ getRouteGeoHashes (fun _ _ => 0) (fun _ _ => 0) (fun p _ _ => p) (fun _ => 1)
        (fun _ _ _ => "e") (fun _ _ _ _ _ => []) ⟨0, 0⟩ ⟨1, 1⟩ 5 1000 10000) ∧
    ("e" ∈ getRouteGeoHashesCfg (fun _ _ => 0) (fun _ _ => 0) (fun p _ _ => p) (fun _ => 1)
        (fun _ _ _ => "e") (fun _ _ _ _ _ => []) 10 ⟨0, 0⟩ ⟨1, 1⟩
        { distance := 0, index := "GSI1", hashPrecision := 5,
          distributionPrecision := 5, fetchLimitMultiplier := 0.1 } 1000 10000) :=
  ⟨((routeCoverage_contains_endpoints _ _ _ _ _ _ _ _).1 5 1000 10000 (by norm_num)).1,
   ((routeCoverage_contains_endpoints _ _ _ _ _ _ _ _).2 10 1000 10000 _ (by norm_num)
      (by decide)).1⟩

/-- Counterexample for C4 as frozen: under a primary-index tier the
config-argument route coverage does not contain the raw endpoint geohash —
it only contains shard-prefixed keys. -/
theorem routeCoverage_primary_counterexample :
    "g" ∉ getRouteGeoHashesCfg (fun _ _ => 0) (fun _ _ => 0) (fun p _ _ => p) (fun _ => 1)
        (fun _ _ _ => "g") (fun _ _ _ _ _ => []) 10 ⟨0, 0⟩ ⟨0, 0⟩
        { distance := 2000000, index := "primary", hashPrecision := 1,
          distributionPrecision := 3, fetchLimitMultiplier := 0.5 } 1000 10000 := by
  decide

/-! ### Claim C9 -/

/-- A stored geo point as consumed by the route-proximity filters: `lat` and
`lon` may be absent (the code guards them with JavaScript truthiness), plus
the record type tag. -/
structure GeoPoint where
  lat : Option ℚ
  lon : Option ℚ
  type : String
deriving DecidableEq, Repr

/-- JavaScript truthiness of a possibly-missing number: `undefined` and `0`
are falsy, any other number is truthy. -/
def truthy : Option ℚ → Bool
  | none => false
  | some q => decide (q ≠ 0)

/-- Embedding of `getPointsNearRouteSegment(start, end, geoPoints)`: points
with truthy coordinates are kept when within 500 m (type Population) or
20000 m (type Weather) of the segment; `getDistanceFromLine` (geolib) is the
parameter `distLine`. -/
def getPointsNearRouteSegment (distLine : GeoPoint → Point → Point → ℚ)
    (start stop : Point) (geoPoints : List GeoPoint) : List GeoPoint :=
  geoPoints.foldl
    (fun results point =>
      if truthy point.lat && truthy point.lon then
        let d := distLine point start stop
        let r1 := if d ≤ 500 ∧ point.type = "Population" then results ++ [point] else results
        if d ≤ 20000 ∧ point.type = "Weather" then r1 ++ [point] else r1
      else results)
    []

/-- Embedding of the buffer-argument variant `getPointsNearRoute(start, end,
geoPoints, bufferMeters)`: points with truthy coordinates within
`bufferMeters` of the segment are kept. -/
def getPointsNearRoute (distLine : GeoPoint → Point → Point → ℚ)
    (start stop : Point) (geoPoints : List GeoPoint) (bufferMeters : ℚ) : List GeoPoint :=
  geoPoints.foldl
    (fun results point =>
      if truthy point.lat && truthy point.lon then
        if distLine point start stop ≤ bufferMeters then results ++ [point] else results
      else results)
    []

theorem not_mem_filter_fold {p : GeoPoint}
    (hp : ¬ (truthy p.lat && truthy p.lon) = true)
    (step : List GeoPoint → GeoPoint → List GeoPoint)
    (hkeep : ∀ results point, (truthy point.lat && truthy point.lon) = false →
      step results point = results)
    (hsub : ∀ results point, (truthy point.lat && truthy point.lon) = true →
      ∀ x, x ∈ step results point → x ∈ results ∨ x = point) :
    ∀ (pts : List GeoPoint) (init : List GeoPoint), p ∉ init →
      p ∉ pts.foldl step init := by
  intro pts
  induction pts with
  | nil => intro init h; exact h
  | cons q qs ih =>
      intro init h
      apply ih
      intro hmem
      by_cases hq : (truthy q.lat && truthy q.lon) = true
      · rcases hsub init q hq p hmem with hin | rfl
        · exact h hin
        · exact hp hq
      · rw [hkeep init q (Bool.not_eq_true _ ▸ Bool.of_not_eq_true hq)] at hmem
        exact h hmem

/-- C9: any geo point whose `lat` or `lon` is missing or exactly zero is
excluded from the result of both route-proximity filters, for every distance
function (in particular even when the point is within the buffer distance of
the route) — so valid points on the equator or the prime meridian are never
returned. -/
theorem routeFilter_excludes_falsy_coordinates
    (distLine : GeoPoint → Point → Point → ℚ) (start stop : Point)
    (geoPoints : List GeoPoint) (bufferMeters : ℚ) (p : GeoPoint)
    (hp : p.lat = none ∨ p.lat = some 0 ∨ p.lon = none ∨ p.lon = some 0) :
    p ∉ getPointsNearRoute distLine start stop geoPoints bufferMeters ∧
    p ∉ getPointsNearRouteSegment distLine start stop geoPoints := by
  have hfalsy : ¬ (truthy p.lat && truthy p.lon) = true := by
    rcases hp with h | h | h | h <;> simp [h, truthy]
  constructor
  · unfold getPointsNearRoute
    apply not_mem_filter_fold hfalsy
    · intro results point hq
      simp [hq]
    · intro results point hq x hx
      simp only [hq, if_true] at hx
      split_ifs at hx with hd
      · rcases List.mem_append.mp hx with hin | hsing
        · exact Or.inl hin
        · exact Or.inr (List.mem_singleton.mp hsing)
      · exact Or.inl hx
    · exact List.not_mem_nil p
  · unfold getPointsNearRouteSegment
    apply not_mem_filter_fold hfalsy
    · intro results point hq
      simp [hq]
    · intro results point hq x hx
      simp only [hq, if_true] at hx
      split_ifs at hx with h1 h2 h2
      · rcases List.mem_append.mp hx with hin | hsing
        · rcases List.mem_append.mp hin with hin' | hsing'
          · exact Or.inl hin'
          · exact Or.inr (List.mem_singleton.mp hsing')
        · exact Or.inr (List.mem_singleton.mp hsing)
      · rcases List.mem_append.mp hx with hin | hsing
        · exact Or.inl hin
        · exact Or.inr (List.mem_singleton.mp hsing)
      · rcases List.mem_append.mp hx with hin | hsing
        · exact Or.inl hin
        · exact Or.inr (List.mem_singleton.mp hsing)
      · exact Or.inl hx
    · exact List.not_mem_nil p

/-- Witness for C9: a Weather point sitting exactly on the route (distance
0, well inside every buffer) but with latitude 0 is not returned by either
filter. -/
theorem routeFilter_excludes_falsy_coordinates_witness :
    ({ lat := some 0, lon := some 5, type := "Weather" } : GeoPoint) ∉
        getPointsNearRoute (fun _ _ _ => 0) ⟨0, 0⟩ ⟨1, 1⟩
          [{ lat := some 0, lon := some 5, type := "Weather" }] 10000 ∧
    ({ lat := some 0, lon := some 5, type := "Weather" } : GeoPoint) ∉
        getPointsNearRouteSegment (fun _ _ _ => 0) ⟨0, 0⟩ ⟨1, 1⟩
          [{ lat := some 0, lon := some 5, type := "Weather" }] :=
  routeFilter_excludes_falsy_coordinates (fun _ _ _ => 0) ⟨0, 0⟩ ⟨1, 1⟩
    [{ lat := some 0, lon := some 5, type := "Weather" }] 10000
    { lat := some 0, lon := some 5, type := "Weather" } (Or.inr (Or.inl rfl))

/-! ### API handlers (claim C8) -/

/-- Embedding of `getBoundingBoxGeoHashes(boundingBox, geospatialConfig)`:
cover the box with geohash cells at the config precision (`ngeohash.bboxes`
is the parameter `bboxes`) and shard-expand them under the primary index. -/
def getBoundingBoxGeoHashes (bboxes : ℚ → ℚ → ℚ → ℚ → ℕ → List String)
    (shards : ℕ) (boundingBox : BoundingBox)
    (geospatialConfig : GeospatialConfig) : List String :=
  let hashes := bboxes boundingBox.latMin boundingBox.lonMin boundingBox.latMax
    boundingBox.lonMax geospatialConfig.hashPrecision
  if geospatialConfig.index = "primary" then
    hashes.flatMap (fun hsh => getAllShardPrefixes shards hsh)
  else hashes

/-- Query-string parameters of the bounding-box endpoint (each may be
absent, as `event.queryStringParameters?.x` may be `undefined`). -/
structure BBoxApiEvent where
  latMin : Option String
  lonMin : Option String
  latMax : Option String
  lonMax : Option String
deriving DecidableEq, Repr

/-- Query-string parameters of the route endpoint. -/
structure RouteApiEvent where
  latStart : Option String
  lonStart : Option String
  latEnd : Option String
  lonEnd : Option String
deriving DecidableEq, Repr

/-- Outcome of a handler invocation relevant to validation: the HTTP status
code and the list of geohash keys for which the handler issues store
queries (`fetchGeoHashItemsFromDynamoDB` issues exactly one query per key). -/
structure HandlerOutcome where
  statusCode : ℕ
  storeQueries : List String
deriving DecidableEq, Repr

/-- Parameter-to-coordinate conversion in the handlers:
`x ? parseFloat(x) : 0` — an absent or empty (falsy) string becomes 0,
otherwise `parseFloat` (a parameter, as the engine treats its result
opaquely) is applied. -/
def parseCoord (parseFloat : String → ℚ) (v : Option String) : ℚ :=
  match v with
  | none => 0
  | some s => if s = "" then 0 else parseFloat s

/-- Embedding of the `get-bounding-box.ts` handler down to the store fan-out:
validation of the four box parameters, box construction, precision
selection, coverage and shard expansion.  The store keys it would query are
returned as `storeQueries`. -/
def getBoundingBoxHandler (getDist : Point → Point → ℕ) (parseFloat : String → ℚ)
    (bboxes : ℚ → ℚ → ℚ → ℚ → ℕ → List String) (shards : ℕ)
    (event : BBoxApiEvent) : HandlerOutcome :=
  if event.latMin = none ∨ event.lonMin = none ∨ event.latMax = none ∨ event.lonMax = none
  then { statusCode := 400, storeQueries := [] }
  else
    let boundingBox : BoundingBox :=
      { latMin := parseCoord parseFloat event.latMin
        lonMin := parseCoord parseFloat event.lonMin
        latMax := parseCoord parseFloat event.latMax
        lonMax := parseCoord parseFloat event.lonMax }
    let geospatialConfig := calculateGeoHashPrecision getDist
      ⟨boundingBox.latMin, boundingBox.lonMin⟩ ⟨boundingBox.latMax, boundingBox.lonMax⟩
    let hashPrefixes := getBoundingBoxGeoHashes bboxes shards boundingBox geospatialConfig
    { statusCode := 200, storeQueries := hashPrefixes }

/-- Embedding of the `get-route.ts` handler down to the store fan-out. -/
def getRouteHandler (getDist : Point → Point → ℕ) (parseFloat : String → ℚ)
    (bearingFn : Point → Point → ℚ) (destPoint : Point → ℚ → ℚ → Point)
    (cosDeg : ℚ → ℚ) (encode : ℚ → ℚ → ℕ → String)
    (bboxes : ℚ → ℚ → ℚ → ℚ → ℕ → List String) (shards : ℕ)
    (event : RouteApiEvent) : HandlerOutcome :=
  if event.latStart = none ∨ event.lonStart = none ∨ event.latEnd = none ∨ event.lonEnd = none
  then { statusCode := 400, storeQueries := [] }
  else
    let startPoint : Point :=
      ⟨parseCoord parseFloat event.latStart, parseCoord parseFloat event.lonStart⟩
    let endPoint : Point :=
      ⟨parseCoord parseFloat event.latEnd, parseCoord parseFloat event.lonEnd⟩
    let geospatialConfig := calculateGeoHashPrecision getDist startPoint endPoint
    let hashPrefixes := getRouteGeoHashesCfg getDist bearingFn destPoint cosDeg encode bboxes
      shards startPoint endPoint geospatialConfig 1000 10000
    { statusCode := 200, storeQueries := hashPrefixes }

/-- C8 (amended): whenever any of the four required spatial parameters is
missing (`undefined`), each handler returns the 400 validation error and
issues no store queries.  (A present-but-malformed parameter is not
validated — see the counterexample theorem: the handler proceeds and issues
store queries.) -/
theorem handlers_reject_missing_params :
    (∀ (getDist : Point → Point → ℕ) (parseFloat : String → ℚ)
        (bboxes : ℚ → ℚ → ℚ → ℚ → ℕ → List String) (shards : ℕ) (event : BBoxApiEvent),
      (event.latMin = none ∨ event.lonMin = none ∨ event.latMax = none ∨ event.lonMax = none) →
      getBoundingBoxHandler getDist parseFloat bboxes shards event
        = { statusCode := 400, storeQueries := [] }) ∧
    (∀ (getDist : Point → Point → ℕ) (parseFloat : String → ℚ)
        (bearingFn : Point → Point → ℚ) (destPoint : Point → ℚ → ℚ → Point)
        (cosDeg : ℚ → ℚ) (encode : ℚ → ℚ → ℕ → String)
        (bboxes : ℚ → ℚ → ℚ → ℚ → ℕ → List String) (shards : ℕ) (event : RouteApiEvent),
      (event.latStart = none ∨ event.lonStart = none ∨ event.latEnd = none ∨
        event.lonEnd = none) →
      getRouteHandler getDist parseFloat bearingFn destPoint cosDeg encode bboxes shards event
        = { statusCode := 400, storeQueries := [] }) := by
  constructor
  · intro getDist parseFloat bboxes shards event hmiss
    unfold getBoundingBoxHandler
    rw [if_pos hmiss]
  · intro getDist parseFloat bearingFn destPoint cosDeg encode bboxes shards event hmiss
    unfold getRouteHandler
    rw [if_pos hmiss]

/-- Witness for C8: a bounding-box request with `lonMax` missing and a route
request with `lonEnd` missing are both rejected with 400 and no store
queries. -/
theorem handlers_reject_missing_params_witness :
    getBoundingBoxHandler (fun _ _ => 0) (fun _ => 0) (fun _ _ _ _ _ => ["a"]) 10
        { latMin := some "51.0", lonMin := some "-1.0", latMax := some "51.5",
          lonMax := none }
      = { statusCode := 400, storeQueries := [] } ∧
    getRouteHandler (fun _ _ => 0) (fun _ => 0) (fun _ _ => 0) (fun p _ _ => p) (fun _ => 1)
        (fun _ _ _ => "e") (fun _ _ _ _ _ => []) 10
        { latStart := some "51.5", lonStart := some "-0.1", latEnd := some "48.85",
          lonEnd := none }
      = { statusCode := 400, storeQueries := [] } :=
  ⟨handlers_reject_missing_params.1 _ _ _ 10 _ (by right; right; right; rfl),
   handlers_reject_missing_params.2 _ _ _ _ _ _ _ 10 _ (by right; right; right; rfl)⟩

/-- Counterexample for C8 as frozen: a present-but-malformed bounding-box
parameter (here the empty string for `latMin`) is not rejected — the handler
returns a success outcome and issues store queries. -/
theorem handler_malformed_param_counterexample :
    (getBoundingBoxHandler (fun _ _ => 0) (fun _ => 0) (fun _ _ _ _ _ => ["a"]) 10
        { latMin := some "", lonMin := some "1", latMax := some "2",
          lonMax := some "3" }).statusCode = 200 ∧
    (getBoundingBoxHandler (fun _ _ => 0) (fun _ => 0) (fun _ _ _ _ _ => ["a"]) 10
        { latMin := some "", lonMin := some "1", latMax := some "2",
          lonMax := some "3" }).storeQueries ≠ [] := by
  constructor
  · rfl
  · decide

/-! ### Random sampling (claim C3)

`randomSample(arr, n)` draws `n` distinct elements from `arr` using the
ambient RNG.  The RNG is modelled by the list `picks`: each loop iteration
consumes the next entry and reduces it modulo `arr.length`, exactly the
index range `randomInt(0, arr.length)` / `floor(random() * arr.length)`
produces.  A run of the JavaScript loop that terminates corresponds to a
`picks` list long enough to contain the required number of distinct
indices; the sufficiency hypotheses of the theorems state just that. -/

def sampleLoop {α : Type} (arr : List α) (n : ℕ) : List ℕ → List ℕ → List α → List α
  | [], _, acc => acc
  | idx :: rest, taken, acc =>
    if acc.length = n then acc
    else if idx % arr.length ∈ taken then sampleLoop arr n rest taken acc
    else sampleLoop arr n rest (idx % arr.length :: taken) (acc ++ (arr[idx % arr.length]?).toList)

/-- Embedding of `randomSample(arr, n)`: if `n ≥ arr.length` return a copy
of the whole array, otherwise run the distinct-index sampling loop. -/
def randomSample {α : Type} (picks : List ℕ) (arr : List α) (n : ℕ) : List α :=
  if n ≥ arr.length then arr else sampleLoop arr n picks [] []

theorem sampleLoop_nil {α : Type} (arr : List α) (n : ℕ) (taken : List ℕ) (acc : List α) :
    sampleLoop arr n [] taken acc = acc := rfl

theorem sampleLoop_cons {α : Type} (arr : List α) (n : ℕ) (idx : ℕ) (rest taken : List ℕ)
    (acc : List α) :
    sampleLoop arr n (idx :: rest) taken acc =
      if acc.length = n then acc
      else if idx % arr.length ∈ taken then sampleLoop arr n rest taken acc
      else sampleLoop arr n rest (idx % arr.length :: taken)
        (acc ++ (arr[idx % arr.length]?).toList) := rfl

theorem sampleLoop_length_le {α : Type} (arr : List α) (n : ℕ) :
    ∀ (picks taken : List ℕ) (acc : List α), acc.length ≤ n →
      (sampleLoop arr n picks taken acc).length ≤ n := by
  intro picks
  induction picks with
  | nil => intro taken acc h; rw [sampleLoop_nil]; exact h
  | cons idx rest ih =>
      intro taken acc h
      rw [sampleLoop_cons]
      by_cases h1 : acc.length = n
      · rw [if_pos h1]; exact h
      · rw [if_neg h1]
        by_cases h2 : idx % arr.length ∈ taken
        · rw [if_pos h2]; exact ih taken acc h
        · rw [if_neg h2]
          apply ih
          have : (arr[idx % arr.length]?).toList.length ≤ 1 := by
            cases arr[idx % arr.length]? <;> simp
          rw [List.length_append]
          omega

theorem sampleLoop_length_eq {α : Type} (arr : List α) (n : ℕ) (harr : arr ≠ []) :
    ∀ (picks taken : List ℕ) (acc : List α), acc.length ≤ n →
      n ≤ acc.length +
        (((picks.map (fun idx => idx % arr.length)).toFinset) \ taken.toFinset).card →
      (sampleLoop arr n picks taken acc).length = n := by
  intro picks
  induction picks with
  | nil =>
      intro taken acc hle hcard
      rw [sampleLoop_nil]
      simp only [List.map_nil, List.toFinset_nil, Finset.empty_sdiff, Finset.card_empty] at hcard
      omega
  | cons idx rest ih =>
      intro taken acc hle hcard
      rw [sampleLoop_cons]
      by_cases h1 : acc.length = n
      · rw [if_pos h1]; exact h1
      · rw [if_neg h1]
        have hlt : acc.length < n := lt_of_le_of_ne hle h1
        have hpos : 0 < arr.length := List.length_pos.mpr harr
        by_cases h2 : idx % arr.length ∈ taken
        · rw [if_pos h2]
          apply ih taken acc hle
          have heq : ((idx :: rest).map (fun i => i % arr.length)).toFinset \ taken.toFinset
              = ((rest.map (fun i => i % arr.length)).toFinset) \ taken.toFinset := by
            simp only [List.map_cons, List.toFinset_cons]
            exact Finset.insert_sdiff_of_mem _ (List.mem_toFinset.mpr h2)
          rw [heq] at hcard
          exact hcard
        · rw [if_neg h2]
          have hr : idx % arr.length < arr.length := Nat.mod_lt idx hpos
          have hlen' : (acc ++ (arr[idx % arr.length]?).toList).length = acc.length + 1 := by
            rw [List.getElem?_eq_getElem hr]
            simp
          apply ih (idx % arr.length :: taken) _ (by omega)
          rw [hlen']
          have hsub : ((idx :: rest).map (fun i => i % arr.length)).toFinset \ taken.toFinset
              ⊆ insert (idx % arr.length)
                  ((rest.map (fun i => i % arr.length)).toFinset
                    \ (idx % arr.length :: taken).toFinset) := by
            intro x hx
            rw [Finset.mem_sdiff] at hx
            obtain ⟨hx1, hx2⟩ := hx
            rw [List.map_cons, List.toFinset_cons, Finset.mem_insert] at hx1
            rw [Finset.mem_insert]
            by_cases hxr : x = idx % arr.length
            · exact Or.inl hxr
            · rcases hx1 with heq | hmem
              · exact absurd heq hxr
              · refine Or.inr (Finset.mem_sdiff.mpr ⟨hmem, ?_⟩)
                rw [List.toFinset_cons, Finset.mem_insert]
                push_neg
                exact ⟨hxr, hx2⟩
          have hcard2 := le_trans (Finset.card_le_card hsub) (Finset.card_insert_le _ _)
          omega

theorem sampleLoop_subset {α : Type} (arr : List α) (n : ℕ) :
    ∀ (picks taken : List ℕ) (acc : List α) (x : α),
      x ∈ sampleLoop arr n picks taken acc → x ∈ acc ∨ x ∈ arr := by
  intro picks
  induction picks with
  | nil => intro taken acc x hx; rw [sampleLoop_nil] at hx; exact Or.inl hx
  | cons idx rest ih =>
      intro taken acc x hx
      rw [sampleLoop_cons] at hx
      by_cases h1 : acc.length = n
      · rw [if_pos h1] at hx; exact Or.inl hx
      · rw [if_neg h1] at hx
        by_cases h2 : idx % arr.length ∈ taken
        · rw [if_pos h2] at hx; exact ih taken acc x hx
        · rw [if_neg h2] at hx
          rcases ih _ _ x hx with hacc | harr
          · rcases List.mem_append.mp hacc with h | h
            · exact Or.inl h
            · right
              cases hsome : arr[idx % arr.length]? with
              | none => rw [hsome] at h; simp at h
              | some v =>
                  rw [hsome] at h
                  simp only [Option.toList_some, List.mem_singleton] at h
                  obtain ⟨hlt, hv⟩ := List.getElem?_eq_some_iff.mp hsome
                  exact h ▸ hv ▸ List.getElem_mem hlt
          · exact Or.inr harr

theorem sampleLoop_nodup {α : Type} (arr : List α) (n : ℕ) (hand : arr.Nodup) :
    ∀ (picks taken : List ℕ) (acc : List α), acc.Nodup →
      (∀ (i : ℕ) (hi : i < arr.length), arr[i] ∈ acc → i ∈ taken) →
      (sampleLoop arr n picks taken acc).Nodup := by
  intro picks
  induction picks with
  | nil => intro taken acc hacc _; rw [sampleLoop_nil]; exact hacc
  | cons idx rest ih =>
      intro taken acc hacc hinv
      rw [sampleLoop_cons]
      by_cases h1 : acc.length = n
      · rw [if_pos h1]; exact hacc
      · rw [if_neg h1]
        by_cases h2 : idx % arr.length ∈ taken
        · rw [if_pos h2]; exact ih taken acc hacc hinv
        · rw [if_neg h2]
          cases hsome : arr[idx % arr.length]? with
          | none =>
              apply ih
              · simpa using hacc
              · intro i hi hmem
                simp only [Option.toList_none, List.append_nil] at hmem
                exact List.mem_cons_of_mem _ (hinv i hi hmem)
          | some v =>
              obtain ⟨hr, hv⟩ := List.getElem?_eq_some_iff.mp hsome
              apply ih
              · simp only [Option.toList_some]
                rw [List.nodup_append]
                refine ⟨hacc, List.nodup_singleton _, ?_⟩
                intro a ha hsing
                rw [List.mem_singleton] at hsing
                subst hsing
                exact h2 (hinv (idx % arr.length) hr (hv ▸ ha))
              · intro i hi hmem
                simp only [Option.toList_some] at hmem
                rcases List.mem_append.mp hmem with hin | hsing
                · exact List.mem_cons_of_mem _ (hinv i hi hin)
                · rw [List.mem_singleton] at hsing
                  have hsing' : arr[i] = arr[idx % arr.length] := by rw [hsing, hv]
                  have hieq : i = idx % arr.length :=
                    (List.Nodup.getElem_inj_iff hand).mp hsing'
                  exact hieq ▸ List.mem_cons_self _ _

theorem randomSample_big {α : Type} (picks : List ℕ) (arr : List α) (n : ℕ)
    (h : arr.length ≤ n) : randomSample picks arr n = arr := by
  unfold randomSample
  rw [if_pos h]

theorem randomSample_length_eq {α : Type} (picks : List ℕ) (arr : List α) (n : ℕ)
    (hlt : n < arr.length)
    (hcard : n ≤ ((picks.map (fun idx => idx % arr.length)).toFinset).card) :
    (randomSample picks arr n).length = n := by
  unfold randomSample
  rw [if_neg (by omega)]
  have harr : arr ≠ [] := by
    intro h
    rw [h] at hlt
    simp at hlt
  apply sampleLoop_length_eq arr n harr picks [] [] (by simp)
  simpa using hcard

theorem randomSample_subset {α : Type} (picks : List ℕ) (arr : List α) (n : ℕ)
    (x : α) (hx : x ∈ randomSample picks arr n) : x ∈ arr := by
  unfold randomSample at hx
  split at hx
  · exact hx
  · rcases sampleLoop_subset arr n picks [] [] x hx with h | h
    · simp at h
    · exact h

theorem randomSample_nodup {α : Type} (picks : List ℕ) (arr : List α) (n : ℕ)
    (hand : arr.Nodup) : (randomSample picks arr n).Nodup := by
  unfold randomSample
  split
  · exact hand
  · apply sampleLoop_nodup arr n hand picks [] [] List.nodup_nil
    intro i hi hmem
    simp at hmem

/-! ### Grouping (claim C3)

Both sampler variants group the input list with a plain object used as a
map (`grouped[key].push(p)`): iteration over `Object.values` visits keys in
first-insertion order, and each group keeps the original relative order of
its members.  `groupByKey` reproduces that: the key list in first-seen
order, each group the filter of the input on that key. -/

def groupByKey {α κ : Type} [DecidableEq κ] (keyOf : α → κ) (points : List α) :
    List (List α) :=
  ((points.map keyOf).foldl setAdd []).map
    (fun k => points.filter (fun p => decide (keyOf p = k)))

theorem groupByKey_cells {α κ : Type} [DecidableEq κ] (keyOf : α → κ) (points : List α) :
    (∀ cell ∈ groupByKey keyOf points,
        ∃ k, cell = points.filter (fun p => decide (keyOf p = k))) ∧
    List.Pairwise List.Disjoint (groupByKey keyOf points) := by
  constructor
  · intro cell hcell
    obtain ⟨k, -, hk⟩ := List.mem_map.mp hcell
    exact ⟨k, hk.symm⟩
  · unfold groupByKey
    rw [List.pairwise_map]
    have hkeys : ((points.map keyOf).foldl setAdd []).Nodup :=
      foldl_setAdd_nodup (points.map keyOf) [] List.nodup_nil
    apply List.Pairwise.imp ?_ hkeys
    intro k k' hne x hx hx'
    rw [List.mem_filter] at hx hx'
    exact hne (by
      have e1 := of_decide_eq_true hx.2
      have e2 := of_decide_eq_true hx'.2
      rw [← e1, e2])

/-- Per-group sampling loop of the geohash-grouping sampler: group `i` draws
its picks from the `i`-th entry of `picksList`. -/
def sampleGroups {α : Type} : List (List ℕ) → List (List α) → ℕ → List α
  | _, [], _ => []
  | picksList, group :: rest, n =>
      randomSample (picksList.headD []) group n ++ sampleGroups picksList.tail rest n

/-- The `sampled` list of the geohash-grouping `getDistributedPoints`:
groups by geohash prefix of length `precision`, then draws
`max(1, floor(limit / groupCount))` from each group. -/
def v1Sampled {α : Type} [DecidableEq α] (geoHashOf : α → String)
    (groupPicks : List (List ℕ)) (points : List α) (precision limit : ℕ) : List α :=
  sampleGroups groupPicks (groupByKey (fun p => (geoHashOf p).take precision) points)
    (max 1 (limit / (groupByKey (fun p => (geoHashOf p).take precision) points).length))

/-- Embedding of the geohash-grouping variant of
`getDistributedPoints(points, precision, limit)`: small inputs are returned
whole; otherwise the per-group sample is clamped by a final random draw of
exactly `limit` elements (from `sampled` when it overshoots, else from the
full input). -/
def getDistributedPoints {α : Type} [DecidableEq α] (geoHashOf : α → String)
    (groupPicks : List (List ℕ)) (finalPicks : List ℕ)
    (points : List α) (precision limit : ℕ) : List α :=
  if points.length ≤ limit then points
  else if (v1Sampled geoHashOf groupPicks points precision limit).length > limit then
    randomSample finalPicks (v1Sampled geoHashOf groupPicks points precision limit) limit
  else randomSample finalPicks points limit

/-- JavaScript `Math.min` over a spread list (the list is non-empty at every
call site). -/
def listMin (l : List ℚ) : ℚ := l.foldl min (l.headD 0)

/-- JavaScript `Math.max` over a spread list. -/
def listMax (l : List ℚ) : ℚ := l.foldl max (l.headD 0)

/-- Exact `Math.ceil(Math.sqrt(n))` on naturals. -/
def ceilSqrt (n : ℕ) : ℕ :=
  if Nat.sqrt n * Nat.sqrt n = n then Nat.sqrt n else Nat.sqrt n + 1

/-- Grid cells of the grid-based sampler: bounds of the data, a
`ceil(sqrt(limit))`-sized grid, and grouping of the points by their integer
cell coordinates.  (Lean's total rational division returns 0 for a zero
step, collapsing that axis into a single cell index — the same single-cell
grouping JavaScript produces via its `NaN` keys when all coordinates on an
axis coincide.) -/
def gridCells {α : Type} [DecidableEq α] (latOf lonOf : α → ℚ)
    (points : List α) (limit : ℕ) : List (List α) :=
  let lats := points.map latOf
  let lons := points.map lonOf
  let minLat := listMin lats
  let maxLat := listMax lats
  let minLon := listMin lons
  let maxLon := listMax lons
  let gridSize : ℚ := (ceilSqrt limit : ℕ)
  let latStep := (maxLat - minLat) / gridSize
  let lonStep := (maxLon - minLon) / gridSize
  groupByKey
    (fun p => (⌊(latOf p - minLat) / latStep⌋, ⌊(lonOf p - minLon) / lonStep⌋))
    points

/-- Per-cell sampling loop of the grid sampler: each cell contributes
`min(pointsPerCell, cellSize)` randomly drawn members. -/
def sampleCells {α : Type} : List (List ℕ) → List (List α) → ℕ → List α
  | _, [], _ => []
  | picksList, cell :: rest, ppc =>
      randomSample (picksList.headD []) cell (min ppc cell.length) ++
        sampleCells picksList.tail rest ppc

/-- The pre-refill `result` of the grid sampler. -/
def gridSampled {α : Type} [DecidableEq α] (latOf lonOf : α → ℚ)
    (cellPicks : List (List ℕ)) (points : List α) (limit : ℕ) : List α :=
  sampleCells cellPicks (gridCells latOf lonOf points limit)
    (max 1 (limit / (gridCells latOf lonOf points limit).length))

/-- Embedding of the grid-based variant of `getDistributedPoints(points,
limit)`: small inputs are returned whole; otherwise per-cell samples are
topped up from the unused points when short of `limit` (membership tests
model JavaScript reference equality: list elements are assumed pairwise
distinct object references), and the result is sliced to `limit`. -/
def getDistributedPointsGrid {α : Type} [DecidableEq α] (latOf lonOf : α → ℚ)
    (cellPicks : List (List ℕ)) (refillPicks : List ℕ)
    (points : List α) (limit : ℕ) : List α :=
  if points.length ≤ limit then points
  else
    (if (gridSampled latOf lonOf cellPicks points limit).length < limit then
      gridSampled latOf lonOf cellPicks points limit ++
        randomSample refillPicks
          (points.filter
            (fun p => decide (¬ p ∈ gridSampled latOf lonOf cellPicks points limit)))
          (limit - (gridSampled latOf lonOf cellPicks points limit).length)
    else gridSampled latOf lonOf cellPicks points limit).take limit

theorem getDistributedPoints_length_min {α : Type} [DecidableEq α] (geoHashOf : α → String)
    (groupPicks : List (List ℕ)) (finalPicks : List ℕ)
    (points : List α) (precision limit : ℕ)
    (hfinal : ∀ m, limit < m → limit ≤ ((finalPicks.map (fun idx => idx % m)).toFinset).card) :
    (getDistributedPoints geoHashOf groupPicks finalPicks points precision limit).length
      = min points.length limit := by
  unfold getDistributedPoints
  by_cases hle : points.length ≤ limit
  · rw [if_pos hle, min_eq_left hle]
  · rw [if_neg hle]
    push_neg at hle
    rw [min_eq_right hle.le]
    by_cases hgt : (v1Sampled geoHashOf groupPicks points precision limit).length > limit
    · rw [if_pos hgt]
      exact randomSample_length_eq finalPicks _ limit hgt (hfinal _ hgt)
    · rw [if_neg hgt]
      exact randomSample_length_eq finalPicks points limit hle (hfinal _ hle)

theorem sampleCells_facts {α : Type} :
    ∀ (cells : List (List α)) (picksList : List (List ℕ)) (ppc : ℕ),
      (∀ cell ∈ cells, cell.Nodup) → List.Pairwise List.Disjoint cells →
      (sampleCells picksList cells ppc).Nodup ∧
      (∀ x ∈ sampleCells picksList cells ppc, ∃ cell ∈ cells, x ∈ cell) := by
  intro cells
  induction cells with
  | nil =>
      intro picksList ppc _ _
      constructor
      · exact List.nodup_nil
      · intro x hx
        simp [sampleCells] at hx
  | cons cell rest ih =>
      intro picksList ppc hnd hdisj
      have hcell : cell.Nodup := hnd cell (List.mem_cons_self _ _)
      have hrest := ih picksList.tail ppc
        (fun c hc => hnd c (List.mem_cons_of_mem _ hc)) (List.Pairwise.of_cons hdisj)
      have hheaddisj : ∀ c ∈ rest, List.Disjoint cell c :=
        fun c hc => (List.pairwise_cons.mp hdisj).1 c hc
      constructor
      · show (randomSample (picksList.headD []) cell (min ppc cell.length) ++
          sampleCells picksList.tail rest ppc).Nodup
        rw [List.nodup_append]
        refine ⟨randomSample_nodup _ _ _ hcell, hrest.1, ?_⟩
        intro a ha ha'
        obtain ⟨c, hc, hac⟩ := hrest.2 a ha'
        exact hheaddisj c hc (randomSample_subset _ _ _ a ha) hac
      · intro x hx
        rcases List.mem_append.mp hx with hx | hx
        · exact ⟨cell, List.mem_cons_self _ _, randomSample_subset _ _ _ x hx⟩
        · obtain ⟨c, hc, hxc⟩ := hrest.2 x hx
          exact ⟨c, List.mem_cons_of_mem _ hc, hxc⟩

theorem filter_negation_length {α : Type} (pb : α → Bool) (l : List α) :
    (l.filter pb).length + (l.filter (fun a => ! pb a)).length = l.length := by
  induction l with
  | nil => rfl
  | cons a l ih =>
      cases h : pb a <;> simp [List.filter_cons, h, ← ih] <;> omega

theorem filter_mem_length {α : Type} [DecidableEq α] (points result : List α)
    (hpnd : points.Nodup) (hrnd : result.Nodup) (hsub : ∀ x ∈ result, x ∈ points) :
    (points.filter (fun p => decide (p ∈ result))).length = result.length := by
  have hfin : (points.filter (fun p => decide (p ∈ result))).toFinset = result.toFinset := by
    ext x
    simp only [List.mem_toFinset, List.mem_filter, decide_eq_true_eq]
    exact ⟨fun h => h.2, fun h => ⟨hsub x h, h⟩⟩
  have h1 : (points.filter (fun p => decide (p ∈ result))).Nodup := hpnd.filter _
  calc (points.filter (fun p => decide (p ∈ result))).length
      = (points.filter (fun p => decide (p ∈ result))).toFinset.card :=
        (List.toFinset_card_of_nodup h1).symm
    _ = result.toFinset.card := by rw [hfin]
    _ = result.length := List.toFinset_card_of_nodup hrnd

theorem filter_not_mem_length {α : Type} [DecidableEq α] (points result : List α)
    (hpnd : points.Nodup) (hrnd : result.Nodup) (hsub : ∀ x ∈ result, x ∈ points) :
    (points.filter (fun p => decide (¬ p ∈ result))).length
      = points.length - result.length := by
  have hneg : points.filter (fun p => decide (¬ p ∈ result))
      = points.filter (fun p => ! decide (p ∈ result)) := by
    apply List.filter_congr
    intro x _
    rw [decide_not]
  have h := filter_negation_length (fun p => decide (p ∈ result)) points
  rw [filter_mem_length points result hpnd hrnd hsub] at h
  rw [hneg]
  omega

theorem gridCells_spec {α : Type} [DecidableEq α] (latOf lonOf : α → ℚ)
    (points : List α) (limit : ℕ) :
    ∃ keyOf : α → ℤ × ℤ, gridCells latOf lonOf points limit = groupByKey keyOf points :=
  ⟨_, rfl⟩

theorem getDistributedPointsGrid_length_min {α : Type} [DecidableEq α]
    (latOf lonOf : α → ℚ) (cellPicks : List (List ℕ)) (refillPicks : List ℕ)
    (points : List α) (limit : ℕ) (hpnd : points.Nodup)
    (hrefill : ∀ m, 0 < m →
      min limit m ≤ ((refillPicks.map (fun idx => idx % m)).toFinset).card) :
    (getDistributedPointsGrid latOf lonOf cellPicks refillPicks points limit).length
      = min points.length limit := by
  unfold getDistributedPointsGrid
  by_cases hle : points.length ≤ limit
  · rw [if_pos hle, min_eq_left hle]
  · rw [if_neg hle]
    push_neg at hle
    rw [min_eq_right hle.le]
    obtain ⟨keyOf, hkeyeq⟩ := gridCells_spec latOf lonOf points limit
    have hcells := groupByKey_cells keyOf points
    have hcellnd : ∀ cell ∈ gridCells latOf lonOf points limit, cell.Nodup := by
      rw [hkeyeq]
      intro cell hcell
      obtain ⟨k, rfl⟩ := hcells.1 cell hcell
      exact hpnd.filter _
    have hcelldisj : List.Pairwise List.Disjoint (gridCells latOf lonOf points limit) := by
      rw [hkeyeq]
      exact hcells.2
    have hsf := sampleCells_facts (gridCells latOf lonOf points limit) cellPicks
      (max 1 (limit / (gridCells latOf lonOf points limit).length)) hcellnd hcelldisj
    set result := gridSampled latOf lonOf cellPicks points limit with hres
    have hreq : result = sampleCells cellPicks (gridCells latOf lonOf points limit)
        (max 1 (limit / (gridCells latOf lonOf points limit).length)) := rfl
    have hrnd : result.Nodup := by rw [hreq]; exact hsf.1
    have hrsub : ∀ x ∈ result, x ∈ points := by
      intro x hx
      rw [hreq] at hx
      obtain ⟨cell, hcell, hxc⟩ := hsf.2 x hx
      rw [hkeyeq] at hcell
      obtain ⟨k, rfl⟩ := hcells.1 cell hcell
      exact (List.mem_filter.mp hxc).1
    by_cases hshort : result.length < limit
    · rw [if_pos hshort]
      have hulen : (points.filter (fun p => decide (¬ p ∈ result))).length
          = points.length - result.length :=
        filter_not_mem_length points result hpnd hrnd hrsub
      have hrem_lt : limit - result.length
          < (points.filter (fun p => decide (¬ p ∈ result))).length := by
        rw [hulen]; omega
      have hcard : limit - result.length ≤
          ((refillPicks.map (fun idx =>
            idx % (points.filter (fun p => decide (¬ p ∈ result))).length)).toFinset).card := by
        have hu : 0 < (points.filter (fun p => decide (¬ p ∈ result))).length := by omega
        refine le_trans (le_min (by omega) (by omega)) (hrefill _ hu)
      have hsamp := randomSample_length_eq refillPicks
        (points.filter (fun p => decide (¬ p ∈ result))) (limit - result.length) hrem_lt hcard
      rw [List.length_take, List.length_append, hsamp]
      omega
    · rw [if_neg hshort]
      rw [List.length_take]
      omega

/-- C3: both sampler variants return exactly `min(len(input), limit)`
elements.  The geohash-grouping variant needs only that the RNG stream of
its final clamping draw eventually supplies `limit` distinct indices (true
with probability 1 of the JavaScript loop, which otherwise would not
terminate); the grid variant needs the same for its refill draw, plus
pairwise-distinct input elements, which models the JavaScript reference
equality used by `result.includes(p)` (every array element is a distinct
object reference in the pipeline). -/
theorem sampler_returns_min_length :
    (∀ (α : Type) [DecidableEq α] (geoHashOf : α → String)
        (groupPicks : List (List ℕ)) (finalPicks : List ℕ)
        (points : List α) (precision limit : ℕ),
      (∀ m, limit < m → limit ≤ ((finalPicks.map (fun idx => idx % m)).toFinset).card) →
      (getDistributedPoints geoHashOf groupPicks finalPicks points precision limit).length
        = min points.length limit) ∧
    (∀ (α : Type) [DecidableEq α] (latOf lonOf : α → ℚ)
        (cellPicks : List (List ℕ)) (refillPicks : List ℕ)
        (points : List α) (limit : ℕ),
      points.Nodup →
      (∀ m, 0 < m → min limit m ≤ ((refillPicks.map (fun idx => idx % m)).toFinset).card) →
      (getDistributedPointsGrid latOf lonOf cellPicks refillPicks points limit).length
        = min points.length limit) := by
  constructor
  · intro α _ geoHashOf groupPicks finalPicks points precision limit hfinal
    exact getDistributedPoints_length_min geoHashOf groupPicks finalPicks points
      precision limit hfinal
  · intro α _ latOf lonOf cellPicks refillPicks points limit hpnd hrefill
    exact getDistributedPointsGrid_length_min latOf lonOf cellPicks refillPicks points
      limit hpnd hrefill

/-- Witness for C3: a three-element input sampled down to 2 by the grouping
variant, and a two-element input sampled down to 1 by the grid variant. -/
theorem sampler_returns_min_length_witness :
    (getDistributedPoints (fun s : String => s) [[0], [0]] [0, 1]
        ["ab", "ab", "cd"] 1 2).length = min ["ab", "ab", "cd"].length 2 ∧
    (getDistributedPointsGrid Prod.fst Prod.snd [] [0]
        [((0 : ℚ), (0 : ℚ)), (1, 1)] 1).length
      = min [((0 : ℚ), (0 : ℚ)), (1, 1)].length 1 :=
  ⟨sampler_returns_min_length.1 String (fun s => s) [[0], [0]] [0, 1]
      ["ab", "ab", "cd"] 1 2
      (fun m hm => by
        have e : ([0, 1].map (fun idx => idx % m)) = [0, 1] := by
          simp [Nat.mod_eq_of_lt (show 1 < m by omega)]
        rw [e]
        decide),
   sampler_returns_min_length.2 (ℚ × ℚ) Prod.fst Prod.snd [] [0]
      [((0 : ℚ), (0 : ℚ)), (1, 1)] 1 (by decide)
      (fun m hm => by
        have e : ([0].map (fun idx => idx % m)) = [0] := by simp
        rw [e]
        exact le_trans (min_le_left 1 m) (by decide))⟩
